import Mathlib

/-!
Verification of the `FirstAidKit` conversion in `src/action/bandaid.rs` of
cargo-spellcheck: turning a (replacement string, span) pair into a list of
single-line `BandAid` edits.

Strings are embedded as lists of unicode scalar values (`List Char`), matching
Rust's `str::chars`. Fallible conversions return `Except String`.
-/

namespace Spellcheck

/-- `crate::span::LineColumn`: 1-based line, 0-based column. -/
structure LineColumn where
  line : Nat
  column : Nat
  deriving DecidableEq, Repr

/-- `crate::span::Span`: an inclusive region from `start` to `end`. -/
structure Span where
  start : LineColumn
  «end» : LineColumn
  deriving DecidableEq, Repr

/-- Modelled from the spec: `Span::is_multiline` lives in `crate::span`, outside
the provided sources; the spec defines it as `start.line ≠ end.line`. -/
def Span.is_multiline (s : Span) : Bool :=
  s.start.line != s.«end».line

/-- Splits a list of chars at every newline character, keeping the (possibly
empty) chunk after the final newline. Helper for `rustLines`. -/
def splitOnNl : List Char → List (List Char)
  | [] => [[]]
  | c :: rest =>
    if c = '\n' then [] :: splitOnNl rest
    else
      match splitOnNl rest with
      | [] => [[c]]
      | l :: ls => (c :: l) :: ls

/-- Removes a single trailing carriage return, as Rust's `str::lines` does for
chunks that were terminated by a newline. -/
def stripCr (l : List Char) : List Char :=
  if l.getLast? = some '\r' then l.dropLast else l

/-- Rust's `str::lines`: split at line feeds, strip a carriage return preceding
each line feed, and drop a final empty chunk (the optional final line ending). -/
def rustLines (s : List Char) : List (List Char) :=
  match (splitOnNl s).reverse with
  | [] => []
  | last :: rev_init =>
    let init := rev_init.reverse.map stripCr
    if last = [] then init else init ++ [last]

/-- Rust's inclusive range `a..=b` as a list, in order. -/
def rangeIncl (a b : Nat) : List Nat :=
  List.range' a (b + 1 - a)

/-- `BandAid`: a span (intended to cover at most one line) plus its replacement
text. -/
structure BandAid where
  span : Span
  replacement : List Char
  deriving DecidableEq, Repr

/-- `FirstAidKit`: all bandaids constructed from the replacement of one
suggestion. -/
structure FirstAidKit where
  bandaids : List BandAid
  deriving DecidableEq, Repr

/-- The `while let` loop of `TryFrom<(&String, &Span)>`: one bandaid per
remaining replacement line. `span_lines` is the not-yet-consumed part of the
iterator `span.start.line..=span.end.line`; `headD`/`tail` model
`next().unwrap_or(span.end.line)`, and `rest` being nonempty models
`replacement_lines.peek().is_some()`. -/
def subsequentBandaids (span : Span) :
    List (List Char) → List Nat → List BandAid
  | [], _ => []
  | repl :: rest, span_lines =>
    let line := span_lines.headD span.«end».line
    let span_line : Span :=
      if !rest.isEmpty then
        { start := { line := line, column := 0 }
          «end» := { line := line, column := repl.length } }
      else
        -- span of last line only covers first column until original end.column
        { start := { line := line, column := 0 }
          «end» := { line := line, column := span.«end».column } }
    { span := span_line, replacement := repl } ::
      subsequentBandaids span rest span_lines.tail

/-- `TryFrom<(&String, &Span)> for FirstAidKit`. In the multiline branch the
first bandaid keeps the original start and ends at
`start.column + (first replacement line).length`; the remaining replacement
lines are handled by `subsequentBandaids`. In the single-line branch the span
is passed through untouched (`BandAid::try_from` via `From` never fails). -/
def FirstAidKit.tryFrom (replacement : List Char) (span : Span) :
    Except String FirstAidKit :=
  if span.is_multiline then
    match rustLines replacement with
    | [] => .error "Replacement must contain at least one line"
    | first_line :: replacement_rest =>
      match rangeIncl span.start.line span.«end».line with
      | [] => .error "Span must cover at least one line"
      | first_span_line :: span_lines_rest =>
        let first_span : Span :=
          { start := span.start
            «end» := { line := first_span_line
                       column := span.start.column + first_line.length } }
        .ok ⟨{ span := first_span, replacement := first_line } ::
          subsequentBandaids span replacement_rest span_lines_rest⟩
  else
    .ok ⟨[{ span := span, replacement := replacement }]⟩

/-- Modelled from the spec: `crate::suggestion::Suggestion` is outside the
provided sources; the spec describes it as a span plus an ordered sequence of
candidate replacement strings (only these two fields are used here). -/
structure Suggestion where
  span : Span
  replacements : List (List Char)
  deriving DecidableEq, Repr

/-- `TryFrom<(&Suggestion, usize)> for FirstAidKit`: look up the picked
replacement, then defer to the raw `(replacement, span)` conversion. -/
def FirstAidKit.tryFromSuggestion (suggestion : Suggestion) (pick_idx : Nat) :
    Except String FirstAidKit :=
  match suggestion.replacements[pick_idx]? with
  | none => .error "Does not contain any replacements"
  | some replacement => FirstAidKit.tryFrom replacement suggestion.span

/-! ### Helper lemmas -/

theorem is_multiline_true_iff (s : Span) :
    s.is_multiline = true ↔ s.start.line ≠ s.«end».line := by
  simp [Span.is_multiline]

theorem getD_tail (l : List Nat) (j d : Nat) :
    (l.tail).getD j d = l.getD (j + 1) d := by
  cases l <;> simp [List.getD]

theorem headD_eq_getD_zero (l : List Nat) (d : Nat) : l.headD d = l.getD 0 d := by
  cases l <;> simp [List.getD]

theorem rangeIncl_eq_cons (a b : Nat) (h : a ≤ b) :
    rangeIncl a b = a :: List.range' (a + 1) (b - a) := by
  unfold rangeIncl
  have hab : b + 1 - a = (b - a) + 1 := by omega
  rw [hab, List.range'_succ a (b - a) 1]

theorem rangeIncl_eq_nil (a b : Nat) (h : b < a) : rangeIncl a b = [] := by
  unfold rangeIncl
  have hab : b + 1 - a = 0 := by omega
  rw [hab]
  rfl

/-- Value of the padded span-line sequence used for the subsequent bandaids:
positions inside `range' (a+1) (b-a)` read off `a + 1 + j`, positions past the
end fall back to the default `b` (modelling `next().unwrap_or(span.end.line)`). -/
theorem range'_getD (a b j : Nat) :
    (List.range' (a + 1) (b - a)).getD j b =
      if j < b - a then a + 1 + j else b := by
  by_cases hj : j < b - a
  · simp [List.getD, List.getElem?_range', hj]
  · have hlen : (List.range' (a + 1) (b - a)).length ≤ j := by simp; omega
    simp [List.getD, List.getElem?_eq_none hlen, hj]

theorem subsequentBandaids_length (S : Span) (repls : List (List Char))
    (span_lines : List Nat) :
    (subsequentBandaids S repls span_lines).length = repls.length := by
  induction repls generalizing span_lines with
  | nil => rfl
  | cons r rs ih => simp [subsequentBandaids, ih]

theorem subsequentBandaids_map_replacement (S : Span) (repls : List (List Char))
    (span_lines : List Nat) :
    (subsequentBandaids S repls span_lines).map (fun b => b.replacement) = repls := by
  induction repls generalizing span_lines with
  | nil => rfl
  | cons r rs ih => simp [subsequentBandaids, ih]

/-- Elementwise characterisation of the loop's output: the `j`-th bandaid sits
on line `span_lines.getD j S.end.line`, ends at the replacement line's length
except on the last line, where it ends at the original end column. -/
theorem subsequentBandaids_getElem? (S : Span) (repls : List (List Char))
    (span_lines : List Nat) (j : Nat) (hj : j < repls.length) :
    (subsequentBandaids S repls span_lines)[j]? = some
      { span :=
          { start := { line := span_lines.getD j S.«end».line, column := 0 }
            «end» := { line := span_lines.getD j S.«end».line
                       column := if j + 1 < repls.length
                                 then (repls.getD j []).length
                                 else S.«end».column } }
        replacement := repls.getD j [] } := by
  induction repls generalizing span_lines j with
  | nil => simp at hj
  | cons r rs ih =>
    cases j with
    | zero =>
      cases rs with
      | nil => cases span_lines <;> simp [subsequentBandaids, List.getD]
      | cons r2 rs2 => cases span_lines <;> simp [subsequentBandaids, List.getD]
    | succ j =>
      have hj' : j < rs.length := by simpa using hj
      simp only [subsequentBandaids, List.getElem?_cons_succ]
      rw [ih span_lines.tail j hj', getD_tail]
      have hcond : (j + 1 < rs.length) = (j + 1 + 1 < rs.length + 1) := by
        simp
      simp [List.getD]

theorem subsequentBandaids_single_line (S : Span) (repls : List (List Char))
    (span_lines : List Nat) :
    ∀ b ∈ subsequentBandaids S repls span_lines,
      b.span.start.line = b.span.«end».line := by
  induction repls generalizing span_lines with
  | nil => simp [subsequentBandaids]
  | cons r rs ih =>
    intro b hb
    rw [subsequentBandaids] at hb
    rcases List.mem_cons.mp hb with hb | hb
    · subst hb
      by_cases hrs : rs.isEmpty <;> simp [hrs]
    · exact ih span_lines.tail b hb

theorem getLast?_cons_of_ne_nil {α : Type} (a : α) (l : List α) (h : l ≠ []) :
    (a :: l).getLast? = l.getLast? := by
  cases l with
  | nil => exact absurd rfl h
  | cons b bs => simp [List.getLast?_cons_cons]

/-- The last bandaid of the loop always ends at the original end column (the
`else` branch taken when `peek()` returns `None`). -/
theorem subsequentBandaids_getLast? (S : Span) (repls : List (List Char))
    (span_lines : List Nat) (h : repls ≠ []) :
    ∃ b, (subsequentBandaids S repls span_lines).getLast? = some b ∧
      b.span.«end».column = S.«end».column := by
  induction repls generalizing span_lines with
  | nil => exact absurd rfl h
  | cons r rs ih =>
    cases rs with
    | nil =>
      refine ⟨{ span := { start := { line := span_lines.headD S.«end».line, column := 0 }
                          «end» := { line := span_lines.headD S.«end».line
                                     column := S.«end».column } }
                replacement := r }, ?_, rfl⟩
      simp [subsequentBandaids]
    | cons r2 rs2 =>
      obtain ⟨b, hb, hcol⟩ := ih span_lines.tail (by simp)
      refine ⟨b, ?_, hcol⟩
      rw [subsequentBandaids, getLast?_cons_of_ne_nil]
      · exact hb
      · intro hnil
        have hlen := subsequentBandaids_length S (r2 :: rs2) span_lines.tail
        rw [hnil] at hlen
        simp at hlen

/-- The first bandaid of the loop sits on the head of the remaining span-line
iterator (falling back to the original end line). -/
theorem subsequentBandaids_head?_line (S : Span) (repls : List (List Char))
    (span_lines : List Nat) (b : BandAid)
    (hb : (subsequentBandaids S repls span_lines).head? = some b) :
    b.span.start.line = span_lines.headD S.«end».line := by
  cases repls with
  | nil => simp [subsequentBandaids] at hb
  | cons r rs =>
    rw [subsequentBandaids] at hb
    by_cases hrs : rs.isEmpty <;> simp [hrs] at hb <;> simp [← hb]

theorem headD_eq_head?_getD (l : List Nat) (d : Nat) : l.headD d = l.head?.getD d := by
  cases l <;> rfl

theorem tail_headD_eq_getElem?_one (l : List Nat) (d : Nat) :
    l.tail.headD d = l[1]?.getD d := by
  cases l with
  | nil => rfl
  | cons x xs => cases xs <;> simp

theorem headD_le_tail_headD (l : List Nat) (d : Nat)
    (hchain : List.Chain' (· ≤ ·) l) (hub : ∀ x ∈ l, x ≤ d) :
    l.headD d ≤ l.tail.headD d := by
  cases l with
  | nil => simp
  | cons x xs =>
    cases xs with
    | nil => simpa using hub x (by simp)
    | cons y ys => simpa using (List.chain'_cons.mp hchain).1

/-- Bandaids produced by the loop are in non-decreasing line order whenever the
remaining span-line iterator is sorted and bounded by the original end line. -/
theorem subsequentBandaids_chain (S : Span) (repls : List (List Char)) :
    ∀ span_lines : List Nat,
      List.Chain' (· ≤ ·) span_lines →
      (∀ x ∈ span_lines, x ≤ S.«end».line) →
      List.Chain' (fun x y => x.span.start.line ≤ y.span.start.line)
        (subsequentBandaids S repls span_lines) := by
  induction repls with
  | nil => intro span_lines _ _; simp [subsequentBandaids]
  | cons r rs ih =>
    intro span_lines hchain hub
    rw [subsequentBandaids, List.chain'_cons']
    constructor
    · intro b2 hb2
      have hline2 := subsequentBandaids_head?_line S rs span_lines.tail b2 hb2
      have hle := headD_le_tail_headD span_lines S.«end».line hchain hub
      rw [headD_eq_head?_getD, tail_headD_eq_getElem?_one] at hle
      rw [tail_headD_eq_getElem?_one] at hline2
      by_cases hrs : rs.isEmpty <;> simp [hrs, hline2] <;> omega
    · exact ih span_lines.tail hchain.tail
        (fun x hx => hub x (List.mem_of_mem_tail hx))

/-- On a single-line span the conversion passes the pair through as one
bandaid. -/
theorem tryFrom_not_multiline (R : List Char) (S : Span)
    (h : S.start.line = S.«end».line) :
    FirstAidKit.tryFrom R S = .ok ⟨[{ span := S, replacement := R }]⟩ := by
  simp [FirstAidKit.tryFrom, Span.is_multiline, h]

/-- Full shape of a successful multiline conversion: the first bandaid keeps
the original start and ends at `start.column + L0.length`; the rest comes from
`subsequentBandaids` fed with the remaining original line numbers. -/
theorem tryFrom_multiline_ok (R : List Char) (S : Span)
    (hm : S.is_multiline = true) (hle : S.start.line ≤ S.«end».line)
    (L0 : List Char) (Ls : List (List Char)) (hR : rustLines R = L0 :: Ls) :
    FirstAidKit.tryFrom R S = .ok
      ⟨{ span := { start := S.start
                   «end» := { line := S.start.line
                              column := S.start.column + L0.length } }
         replacement := L0 } ::
        subsequentBandaids S Ls
          (List.range' (S.start.line + 1) (S.«end».line - S.start.line))⟩ := by
  simp only [FirstAidKit.tryFrom, hm, hR, rangeIncl_eq_cons _ _ hle, if_true]

/-- Inversion: a successful conversion is either the untouched single-line
bandaid or the multiline shape of `tryFrom_multiline_ok`. -/
theorem tryFrom_ok_cases (R : List Char) (S : Span) (kit : FirstAidKit)
    (h : FirstAidKit.tryFrom R S = .ok kit) :
    (S.start.line = S.«end».line ∧ kit = ⟨[{ span := S, replacement := R }]⟩) ∨
    (S.start.line ≠ S.«end».line ∧ S.start.line ≤ S.«end».line ∧
      ∃ L0 Ls, rustLines R = L0 :: Ls ∧
        kit = ⟨{ span := { start := S.start
                           «end» := { line := S.start.line
                                      column := S.start.column + L0.length } }
                 replacement := L0 } ::
          subsequentBandaids S Ls
            (List.range' (S.start.line + 1) (S.«end».line - S.start.line))⟩) := by
  by_cases hm : S.start.line = S.«end».line
  · rw [tryFrom_not_multiline R S hm] at h
    exact Or.inl ⟨hm, (Except.ok.inj h).symm⟩
  · right
    have hmt : S.is_multiline = true := (is_multiline_true_iff S).mpr hm
    cases hR : rustLines R with
    | nil =>
      simp only [FirstAidKit.tryFrom, hmt, hR, if_true] at h
      exact Except.noConfusion h
    | cons L0 Ls =>
      by_cases hle : S.start.line ≤ S.«end».line
      · rw [tryFrom_multiline_ok R S hmt hle L0 Ls hR] at h
        exact ⟨hm, hle, L0, Ls, rfl, (Except.ok.inj h).symm⟩
      · have hnil : rangeIncl S.start.line S.«end».line = [] :=
          rangeIncl_eq_nil _ _ (by omega)
        simp only [FirstAidKit.tryFrom, hmt, hR, hnil, if_true] at h
        exact Except.noConfusion h

/-- C1: For every single-line span S (start.line = end.line) and every
replacement string R, the conversion succeeds and yields exactly one edit whose
span equals S and whose replacement equals R unchanged. -/
theorem tryFrom_single_line (R : List Char) (S : Span)
    (h : S.start.line = S.«end».line) :
    FirstAidKit.tryFrom R S = .ok ⟨[{ span := S, replacement := R }]⟩ :=
  tryFrom_not_multiline R S h

/-- Witness for C1 at a concrete single-line span. -/
theorem tryFrom_single_line_witness :
    FirstAidKit.tryFrom ['a'] ⟨⟨1, 2⟩, ⟨1, 5⟩⟩ =
      .ok ⟨[{ span := ⟨⟨1, 2⟩, ⟨1, 5⟩⟩, replacement := ['a'] }]⟩ :=
  tryFrom_single_line ['a'] ⟨⟨1, 2⟩, ⟨1, 5⟩⟩ rfl

/-- The raw conversion never produces the missing-candidate error: its only
error messages are the two replacement/span ones. -/
theorem tryFrom_ne_missing (r : List Char) (sp : Span) :
    FirstAidKit.tryFrom r sp ≠ .error "Does not contain any replacements" := by
  intro h
  unfold FirstAidKit.tryFrom at h
  split at h
  · split at h
    · exact absurd (Except.error.inj h) (by decide)
    · split at h
      · exact absurd (Except.error.inj h) (by decide)
      · exact Except.noConfusion h
  · exact Except.noConfusion h

/-- C2: For every multi-line span S and replacement R with at least one line,
the first edit's span.start equals S.start exactly and its span.end is
`{line := S.start.line, column := S.start.column + char_count(first line of R)}`,
where char_count counts unicode scalar values (list length over `Char`), not
bytes. -/
theorem tryFrom_first_edit (R : List Char) (S : Span) (L0 : List Char)
    (Ls : List (List Char)) (hm : S.is_multiline = true)
    (hle : S.start.line ≤ S.«end».line) (hR : rustLines R = L0 :: Ls) :
    ∃ kit, FirstAidKit.tryFrom R S = .ok kit ∧
      kit.bandaids[0]? = some
        { span := { start := S.start
                    «end» := { line := S.start.line
                               column := S.start.column + L0.length } }
          replacement := L0 } :=
  ⟨_, tryFrom_multiline_ok R S hm hle L0 Ls hR, by simp⟩

/-- Witness for C2: a two-line replacement over a two-line span. -/
theorem tryFrom_first_edit_witness :
    ∃ kit, FirstAidKit.tryFrom ['a', 'b', '\n', 'c'] ⟨⟨1, 2⟩, ⟨2, 7⟩⟩ = .ok kit ∧
      kit.bandaids[0]? = some
        { span := ⟨⟨1, 2⟩, ⟨1, 4⟩⟩, replacement := ['a', 'b'] } :=
  tryFrom_first_edit ['a', 'b', '\n', 'c'] ⟨⟨1, 2⟩, ⟨2, 7⟩⟩ ['a', 'b'] [['c']]
    (by decide) (by decide) (by decide)

/-- C5: For every multi-line span S and replacement R with at least one line,
the conversion yields exactly as many edits as R has lines, and every edit's
span references only lines within `[S.start.line, S.end.line]`. -/
theorem tryFrom_edit_count_lines (R : List Char) (S : Span)
    (hm : S.is_multiline = true) (hle : S.start.line ≤ S.«end».line)
    (hR : rustLines R ≠ []) :
    ∃ kit, FirstAidKit.tryFrom R S = .ok kit ∧
      kit.bandaids.length = (rustLines R).length ∧
      ∀ b ∈ kit.bandaids,
        S.start.line ≤ b.span.start.line ∧ b.span.start.line ≤ S.«end».line ∧
        S.start.line ≤ b.span.«end».line ∧ b.span.«end».line ≤ S.«end».line := by
  obtain ⟨L0, Ls, hR'⟩ := List.exists_cons_of_ne_nil hR
  refine ⟨_, tryFrom_multiline_ok R S hm hle L0 Ls hR', ?_, ?_⟩
  · simp [subsequentBandaids_length, hR']
  · intro b hb
    rcases List.mem_cons.mp hb with hb | hb
    · subst hb
      refine ⟨le_refl _, hle, le_refl _, hle⟩
    · obtain ⟨j, hj⟩ := List.mem_iff_getElem?.mp hb
      have hjlen : j < Ls.length := by
        by_contra hge
        rw [List.getElem?_eq_none
          (by rw [subsequentBandaids_length]; omega)] at hj
        exact Option.noConfusion hj
      rw [subsequentBandaids_getElem? S Ls _ j hjlen] at hj
      obtain rfl := Option.some.inj hj
      dsimp only
      rw [range'_getD]
      split_ifs <;> omega

/-- Witness for C5 at a concrete three-line span with a two-line replacement. -/
theorem tryFrom_edit_count_lines_witness :
    ∃ kit, FirstAidKit.tryFrom ['a', '\n', 'b'] ⟨⟨2, 1⟩, ⟨4, 6⟩⟩ = .ok kit ∧
      kit.bandaids.length = (rustLines ['a', '\n', 'b']).length ∧
      ∀ b ∈ kit.bandaids,
        2 ≤ b.span.start.line ∧ b.span.start.line ≤ 4 ∧
        2 ≤ b.span.«end».line ∧ b.span.«end».line ≤ 4 :=
  tryFrom_edit_count_lines ['a', '\n', 'b'] ⟨⟨2, 1⟩, ⟨4, 6⟩⟩
    (by decide) (by decide) (by decide)

/-- C6: For every multi-line span S and replacement R with at least one line,
the edits' replacement strings are exactly R's lines, in order (line
terminators excluded). -/
theorem tryFrom_replacement_lines (R : List Char) (S : Span)
    (hm : S.is_multiline = true) (hle : S.start.line ≤ S.«end».line)
    (hR : rustLines R ≠ []) :
    ∃ kit, FirstAidKit.tryFrom R S = .ok kit ∧
      kit.bandaids.map (fun b => b.replacement) = rustLines R := by
  obtain ⟨L0, Ls, hR'⟩ := List.exists_cons_of_ne_nil hR
  exact ⟨_, tryFrom_multiline_ok R S hm hle L0 Ls hR',
    by simp [subsequentBandaids_map_replacement, hR']⟩

/-- Witness for C6. -/
theorem tryFrom_replacement_lines_witness :
    ∃ kit, FirstAidKit.tryFrom ['a', '\n', 'b'] ⟨⟨1, 0⟩, ⟨2, 3⟩⟩ = .ok kit ∧
      kit.bandaids.map (fun b => b.replacement) = rustLines ['a', '\n', 'b'] :=
  tryFrom_replacement_lines ['a', '\n', 'b'] ⟨⟨1, 0⟩, ⟨2, 3⟩⟩
    (by decide) (by decide) (by decide)

/-- C3: For every multi-line span S and replacement R, each edit at a middle
position i (not first, not last) covers exactly
`{start := (target, 0), end := (target, char_count(i-th replacement line))}`,
where target is `S.start.line + i` while that stays within the span's lines
and `S.end.line` afterwards (excess replacement lines collapse onto the
span's last line). -/
theorem tryFrom_middle_edit (R : List Char) (S : Span) (i : Nat)
    (hm : S.is_multiline = true) (hle : S.start.line ≤ S.«end».line)
    (hi1 : 1 ≤ i) (hin : i < (rustLines R).length - 1) :
    ∃ kit, FirstAidKit.tryFrom R S = .ok kit ∧
      kit.bandaids[i]? = some
        { span := { start := { line := if i < S.«end».line + 1 - S.start.line
                                       then S.start.line + i else S.«end».line
                               column := 0 }
                    «end» := { line := if i < S.«end».line + 1 - S.start.line
                                       then S.start.line + i else S.«end».line
                               column := ((rustLines R).getD i []).length } }
          replacement := (rustLines R).getD i [] } := by
  obtain ⟨j, rfl⟩ : ∃ j, i = j + 1 := ⟨i - 1, by omega⟩
  cases hR : rustLines R with
  | nil => rw [hR] at hin; simp at hin
  | cons L0 Ls =>
    refine ⟨_, tryFrom_multiline_ok R S hm hle L0 Ls hR, ?_⟩
    rw [hR] at hin
    have hj1 : j + 1 < Ls.length := by simp at hin; omega
    simp only [List.getElem?_cons_succ]
    rw [subsequentBandaids_getElem? S Ls _ j (by omega)]
    have hline : (List.range' (S.start.line + 1)
        (S.«end».line - S.start.line)).getD j S.«end».line =
        if j + 1 < S.«end».line + 1 - S.start.line
        then S.start.line + (j + 1) else S.«end».line := by
      rw [range'_getD]
      split_ifs <;> omega
    rw [hline, if_pos hj1]
    simp [List.getD_cons_succ]

/-- Witness for C3: three replacement lines over a three-line span, middle
edit at position 1. -/
theorem tryFrom_middle_edit_witness :
    ∃ kit, FirstAidKit.tryFrom ['a', '\n', 'b', 'c', '\n', 'd'] ⟨⟨1, 2⟩, ⟨3, 9⟩⟩ =
        .ok kit ∧
      kit.bandaids[1]? = some
        { span := ⟨⟨2, 0⟩, ⟨2, 2⟩⟩, replacement := ['b', 'c'] } :=
  tryFrom_middle_edit ['a', '\n', 'b', 'c', '\n', 'd'] ⟨⟨1, 2⟩, ⟨3, 9⟩⟩ 1
    (by decide) (by decide) (by decide) (by decide)

/-- C4 counterexample: for the multi-line span S = (1,0)..(2,5) (m = 2 lines)
and the single-line replacement "ab" (n = 1 ≤ m), the only — hence last — edit
ends at column 2 = start.column + char_count("ab"), not at S.end.column = 5,
refuting the claim for n = 1 (the repo's own test
`firstaid_replacement_shorter_than_original` exhibits the same shape). -/
theorem tryFrom_last_edit_cex :
    Span.is_multiline ⟨⟨1, 0⟩, ⟨2, 5⟩⟩ = true ∧
    (rustLines ['a', 'b']).length = 1 ∧
    FirstAidKit.tryFrom ['a', 'b'] ⟨⟨1, 0⟩, ⟨2, 5⟩⟩ =
      .ok ⟨[{ span := ⟨⟨1, 0⟩, ⟨1, 2⟩⟩, replacement := ['a', 'b'] }]⟩ ∧
    (⟨⟨⟨1, 0⟩, ⟨1, 2⟩⟩, ['a', 'b']⟩ : BandAid).span.«end».column ≠
      (⟨⟨1, 0⟩, ⟨2, 5⟩⟩ : Span).«end».column :=
  ⟨rfl, rfl, rfl, by decide⟩

/-- C4 amended: For every multi-line span S covering m lines and replacement R
with n lines where 2 ≤ n ≤ m, the last edit's span.end.column equals
S.end.column (the original span's end column). -/
theorem tryFrom_last_edit_col (R : List Char) (S : Span)
    (hm : S.is_multiline = true) (hle : S.start.line ≤ S.«end».line)
    (hn : 2 ≤ (rustLines R).length)
    (hnm : (rustLines R).length ≤ S.«end».line + 1 - S.start.line) :
    ∃ kit, FirstAidKit.tryFrom R S = .ok kit ∧
      ∃ b, kit.bandaids.getLast? = some b ∧
        b.span.«end».column = S.«end».column := by
  cases hR : rustLines R with
  | nil => rw [hR] at hn; simp at hn
  | cons L0 Ls =>
    have hLs : Ls ≠ [] := by
      rw [hR] at hn
      intro h
      subst h
      simp at hn
    obtain ⟨b, hb, hcol⟩ := subsequentBandaids_getLast? S Ls
      (List.range' (S.start.line + 1) (S.«end».line - S.start.line)) hLs
    refine ⟨_, tryFrom_multiline_ok R S hm hle L0 Ls hR, b, ?_, hcol⟩
    rw [getLast?_cons_of_ne_nil]
    · exact hb
    · intro hnil
      have hlen := subsequentBandaids_length S Ls
        (List.range' (S.start.line + 1) (S.«end».line - S.start.line))
      rw [hnil] at hlen
      exact hLs (List.length_eq_zero.mp hlen.symm)

/-- Witness for the amended C4: two replacement lines over a two-line span. -/
theorem tryFrom_last_edit_col_witness :
    ∃ kit, FirstAidKit.tryFrom ['a', '\n', 'b'] ⟨⟨1, 3⟩, ⟨2, 7⟩⟩ = .ok kit ∧
      ∃ b, kit.bandaids.getLast? = some b ∧ b.span.«end».column = 7 :=
  tryFrom_last_edit_col ['a', '\n', 'b'] ⟨⟨1, 3⟩, ⟨2, 7⟩⟩
    (by decide) (by decide) (by decide) (by decide)

/-- C7 counterexample: on the single-line span (1,0)..(1,3) the empty
replacement (zero lines) does not fail — the conversion succeeds with one edit
carrying the empty replacement, refuting failure "for every Span". -/
theorem tryFrom_empty_cex :
    rustLines [] = [] ∧
    FirstAidKit.tryFrom [] ⟨⟨1, 0⟩, ⟨1, 3⟩⟩ =
      .ok ⟨[{ span := ⟨⟨1, 0⟩, ⟨1, 3⟩⟩, replacement := [] }]⟩ :=
  ⟨rfl, rfl⟩

/-- C7 amended: For every multi-line span S, converting an empty replacement
string (zero lines) fails with the malformed-input error and returns no edit
set. -/
theorem tryFrom_empty_multiline (S : Span) (hm : S.is_multiline = true) :
    FirstAidKit.tryFrom [] S = .error "Replacement must contain at least one line" := by
  have h0 : rustLines ([] : List Char) = [] := rfl
  simp only [FirstAidKit.tryFrom, hm, h0, if_true]

/-- Witness for the amended C7. -/
theorem tryFrom_empty_multiline_witness :
    FirstAidKit.tryFrom [] ⟨⟨1, 0⟩, ⟨2, 0⟩⟩ =
      .error "Replacement must contain at least one line" :=
  tryFrom_empty_multiline ⟨⟨1, 0⟩, ⟨2, 0⟩⟩ (by decide)

/-- C8 counterexample: the span (1,5)..(1,2) has start strictly after end in
lexicographic (line, column) order, yet the conversion succeeds (the span is
passed through the single-line branch unchecked); no InvalidSpan error exists
in the conversion. -/
theorem tryFrom_start_after_end_cex :
    (⟨⟨1, 5⟩, ⟨1, 2⟩⟩ : Span).start.line = (⟨⟨1, 5⟩, ⟨1, 2⟩⟩ : Span).«end».line ∧
    (⟨⟨1, 5⟩, ⟨1, 2⟩⟩ : Span).«end».column < (⟨⟨1, 5⟩, ⟨1, 2⟩⟩ : Span).start.column ∧
    FirstAidKit.tryFrom ['x'] ⟨⟨1, 5⟩, ⟨1, 2⟩⟩ =
      .ok ⟨[{ span := ⟨⟨1, 5⟩, ⟨1, 2⟩⟩, replacement := ['x'] }]⟩ :=
  ⟨rfl, by decide, rfl⟩

/-- C8 amended: For every replacement R with at least one line and every span S
whose start line is strictly after its end line, the conversion fails — with
the zero-line-span malformed-input error ("Span must cover at least one
line"), there being no InvalidSpan error in the conversion. -/
theorem tryFrom_line_reversed (R : List Char) (S : Span)
    (hR : rustLines R ≠ []) (hgt : S.«end».line < S.start.line) :
    FirstAidKit.tryFrom R S = .error "Span must cover at least one line" := by
  obtain ⟨L0, Ls, hR'⟩ := List.exists_cons_of_ne_nil hR
  have hm : S.is_multiline = true := (is_multiline_true_iff S).mpr (by omega)
  simp only [FirstAidKit.tryFrom, hm, hR', rangeIncl_eq_nil _ _ hgt, if_true]

/-- Witness for the amended C8. -/
theorem tryFrom_line_reversed_witness :
    FirstAidKit.tryFrom ['x'] ⟨⟨3, 0⟩, ⟨1, 0⟩⟩ =
      .error "Span must cover at least one line" :=
  tryFrom_line_reversed ['x'] ⟨⟨3, 0⟩, ⟨1, 0⟩⟩ (by decide) (by decide)

/-- C9: The (Suggestion, index) conversion fails with the missing-candidate
error exactly when the index is out of bounds of the suggestion's replacement
list; on a valid index it equals the raw (replacement, span) conversion. -/
theorem tryFromSuggestion_spec (s : Suggestion) (i : Nat) :
    (FirstAidKit.tryFromSuggestion s i = .error "Does not contain any replacements" ↔
      ¬ i < s.replacements.length) ∧
    (i < s.replacements.length →
      FirstAidKit.tryFromSuggestion s i =
        FirstAidKit.tryFrom (s.replacements.getD i []) s.span) := by
  unfold FirstAidKit.tryFromSuggestion
  by_cases hi : i < s.replacements.length
  · rw [List.getElem?_eq_getElem hi]
    refine ⟨⟨fun h => absurd h (tryFrom_ne_missing _ _), fun h => absurd hi h⟩,
      fun _ => ?_⟩
    simp [List.getD, List.getElem?_eq_getElem hi]
  · rw [List.getElem?_eq_none (by omega)]
    exact ⟨⟨fun _ => hi, fun _ => rfl⟩, fun h => absurd h hi⟩

/-- Witness for C9: a one-candidate suggestion, picked at index 0 (valid) and
index 1 (out of bounds). -/
theorem tryFromSuggestion_spec_witness :
    FirstAidKit.tryFromSuggestion ⟨⟨⟨1, 0⟩, ⟨1, 2⟩⟩, [['a']]⟩ 0 =
      FirstAidKit.tryFrom (([['a']] : List (List Char)).getD 0 []) ⟨⟨1, 0⟩, ⟨1, 2⟩⟩ ∧
    FirstAidKit.tryFromSuggestion ⟨⟨⟨1, 0⟩, ⟨1, 2⟩⟩, [['a']]⟩ 1 =
      .error "Does not contain any replacements" :=
  ⟨(tryFromSuggestion_spec ⟨⟨⟨1, 0⟩, ⟨1, 2⟩⟩, [['a']]⟩ 0).2 (by decide),
   (tryFromSuggestion_spec ⟨⟨⟨1, 0⟩, ⟨1, 2⟩⟩, [['a']]⟩ 1).1.mpr (by decide)⟩

/-- C10: Every edit of a successful conversion covers a single line
(span.start.line = span.end.line), and the edits appear in non-decreasing
(top-to-bottom) start-line order. -/
theorem tryFrom_ok_invariants (R : List Char) (S : Span) (kit : FirstAidKit)
    (h : FirstAidKit.tryFrom R S = .ok kit) :
    (∀ b ∈ kit.bandaids, b.span.start.line = b.span.«end».line) ∧
    List.Chain' (fun x y => x.span.start.line ≤ y.span.start.line)
      kit.bandaids := by
  rcases tryFrom_ok_cases R S kit h with ⟨hsl, rfl⟩ | ⟨hne, hle, L0, Ls, hR, rfl⟩
  · constructor
    · intro b hb
      simp only [List.mem_singleton] at hb
      subst hb
      exact hsl
    · simp
  · constructor
    · intro b hb
      rcases List.mem_cons.mp hb with hb | hb
      · subst hb
        rfl
      · exact subsequentBandaids_single_line S Ls _ b hb
    · rw [List.chain'_cons']
      constructor
      · intro b2 hb2
        have hline := subsequentBandaids_head?_line S Ls _ b2 hb2
        rw [headD_eq_getD_zero, range'_getD] at hline
        dsimp only
        rw [hline]
        split_ifs <;> omega
      · apply subsequentBandaids_chain
        · exact ((List.pairwise_lt_range' _ _).imp fun h => le_of_lt h).chain'
        · intro x hx
          have := List.mem_range'_1.mp hx
          omega

/-- Witness for C10 at a concrete two-line conversion. -/
theorem tryFrom_ok_invariants_witness :
    (∀ b ∈ (⟨[⟨⟨⟨1, 0⟩, ⟨1, 1⟩⟩, ['a']⟩, ⟨⟨⟨2, 0⟩, ⟨2, 4⟩⟩, ['b']⟩]⟩ :
        FirstAidKit).bandaids, b.span.start.line = b.span.«end».line) ∧
    List.Chain' (fun x y => x.span.start.line ≤ y.span.start.line)
      (⟨[⟨⟨⟨1, 0⟩, ⟨1, 1⟩⟩, ['a']⟩, ⟨⟨⟨2, 0⟩, ⟨2, 4⟩⟩, ['b']⟩]⟩ :
        FirstAidKit).bandaids :=
  tryFrom_ok_invariants ['a', '\n', 'b'] ⟨⟨1, 0⟩, ⟨2, 4⟩⟩ _ rfl

end Spellcheck
